import Mathlib

/-!
Verification of rapidtar's spanning / recovery core.

Shallow embedding of the data-zone accounting subsystem (`spanning.rs`),
the record-blocking stage (`blocking.rs`), the asynchronous write buffer
(`concurrentbuf.rs`) and the recovery engine (`tar/recovery.rs`) of the
rapidtar archiver, together with proofs and refutations of the spec's
claims about them.

Conventions:
* Rust `u64` / `usize` arithmetic is modelled on `Nat`.  The source's
  debug profile panics on overflow and underflow, so the non-panicking
  executions agree with `Nat` arithmetic wherever the source adds; where
  the source uses `checked_sub(..).unwrap_or(0)` or subtracts a value it
  just compared against, truncated `Nat` subtraction coincides with it.
* Rust `&mut self` methods become functions returning the new state
  (paired with the method's return value when there is one).
* Byte buffers are `List Nat`, sinks are modelled by the log of buffers
  handed to them.
-/

set_option autoImplicit false

namespace Rapidtar

/-- `spanning.rs` `DataZone<P>`: a byte range attributed to a single
logical source.  `ident = none` is a slack zone. -/
structure DataZone (P : Type) where
  ident : Option P
  length : Nat
  committed_length : Nat
  uncommitted_length : Nat
  deriving Repr, DecidableEq

namespace DataZone

variable {P : Type}

/-- `DataZone::new`. -/
def new (ident : P) : DataZone P :=
  { ident := some ident, length := 0, committed_length := 0, uncommitted_length := 0 }

/-- `DataZone::for_resumption`. -/
def for_resumption (ident : P) (committed : Nat) : DataZone P :=
  { ident := some ident, length := committed, committed_length := committed,
    uncommitted_length := 0 }

/-- `DataZone::slack_zone`. -/
def slack_zone : DataZone P :=
  { ident := none, length := 0, committed_length := 0, uncommitted_length := 0 }

/-- `DataZone::write_through`. -/
def write_through (z : DataZone P) (len : Nat) : DataZone P :=
  { z with length := z.length + len, committed_length := z.committed_length + len }

/-- `DataZone::write_buffered`. -/
def write_buffered (z : DataZone P) (len : Nat) : DataZone P :=
  { z with length := z.length + len, uncommitted_length := z.uncommitted_length + len }

/-- `DataZone::write_committed`: returns the updated zone and the
overhang (`none` when the zone absorbed the whole commitment). -/
def write_committed (z : DataZone P) (len : Nat) : DataZone P × Option Nat :=
  if z.uncommitted_length ≥ len then
    ({ z with uncommitted_length := z.uncommitted_length - len,
              committed_length := z.committed_length + len }, none)
  else
    let overhang := len - z.uncommitted_length
    ({ z with uncommitted_length := 0,
              committed_length := z.committed_length + (len - overhang) }, some overhang)

/-- `DataZone::merge_zone`. -/
def merge_zone [DecidableEq P] (z other : DataZone P) : Option (DataZone P) :=
  if z.ident ≠ other.ident then
    none
  else
    let merged_length := max z.length other.length
    let merged_commit := min z.committed_length other.committed_length
    let consistent_uncommit := merged_length - merged_commit
    some { ident := z.ident, length := merged_length,
           committed_length := merged_commit,
           uncommitted_length := consistent_uncommit }

end DataZone

/-- `spanning.rs` `DataZoneStream<P>`: current zone plus FIFO of pending
zones.  The `VecDeque` is modelled as a `List` with its front at the
head. -/
structure DataZoneStream (P : Type) where
  cur_zone : Option (DataZone P)
  pending_zones : List (DataZone P)
  deriving Repr, DecidableEq

namespace DataZoneStream

variable {P : Type}

/-- `DataZoneStream::new`. -/
def new : DataZoneStream P :=
  { cur_zone := none, pending_zones := [] }

/-- `DataZoneStream::write_buffered`. -/
def write_buffered (s : DataZoneStream P) (len : Nat) : DataZoneStream P :=
  match s.cur_zone with
  | some z => { s with cur_zone := some (z.write_buffered len) }
  | none => s

/-- `DataZoneStream::write_through`. -/
def write_through (s : DataZoneStream P) (len : Nat) : DataZoneStream P :=
  match s.cur_zone with
  | some z => { s with cur_zone := some (z.write_through len) }
  | none => s

/-- The `while let Some(zone) = self.pending_zones.front_mut()` loop of
`DataZoneStream::write_committed`.  Returns the remaining pending queue
and `none` when the loop returned `None` early (the front zone absorbed
everything), or `some r` when the queue was exhausted with `r` still
uncommitted.  A front zone whose `write_committed` yields an overhang is
popped; one that absorbs the commitment is kept (mutated in place, as in
the source). -/
def commitPending : List (DataZone P) → Nat → List (DataZone P) × Option Nat
  | [], n => ([], some n)
  | z :: rest, n =>
    let step := z.write_committed n
    match step.2 with
    | none => (step.1 :: rest, none)
    | some r =>
      -- `commit_remain = ...unwrap_or(0); if commit_remain == 0 { return None; }`
      if r = 0 then (step.1 :: rest, none)
      else commitPending rest r

/-- `DataZoneStream::write_committed`. -/
def write_committed (s : DataZoneStream P) (len : Nat) :
    DataZoneStream P × Option Nat :=
  match commitPending s.pending_zones len with
  | (p, none) => ({ s with pending_zones := p }, none)
  | (p, some r) =>
    if r > 0 then
      match s.cur_zone with
      | some cz =>
        let step := cz.write_committed r
        ({ cur_zone := some step.1, pending_zones := p }, step.2)
      | none => ({ s with pending_zones := p }, some r)
    else
      ({ s with pending_zones := p }, none)

/-- `DataZoneStream::end_data_zone`. -/
def end_data_zone (s : DataZoneStream P) : DataZoneStream P :=
  let pushed :=
    match s.cur_zone with
    | some z =>
      if z.ident.isSome then s.pending_zones ++ [z]
      else if z.length > 0 then s.pending_zones ++ [z]
      else s.pending_zones
    | none => s.pending_zones
  { cur_zone := some DataZone.slack_zone, pending_zones := pushed }

/-- `DataZoneStream::begin_data_zone`. -/
def begin_data_zone (s : DataZoneStream P) (ident : P) : DataZoneStream P :=
  { s.end_data_zone with cur_zone := some (DataZone.new ident) }

/-- `DataZoneStream::resume_data_zone`. -/
def resume_data_zone (s : DataZoneStream P) (ident : P) (committed : Nat) :
    DataZoneStream P :=
  { s.end_data_zone with cur_zone := some (DataZone.for_resumption ident committed) }

/-- `DataZoneStream::uncommitted_writes`, including its exact control
flow: the pairwise merge `for` loop contains an unconditional `break`,
so at most the first pending zone is merged; the subsequent
"copy the rest" branch is guarded by `pending_zones.len() < merge_count`,
which never holds.  The trailing `zonelist.get(zonelist.len() - 1)` trim
is modelled via `getLast?` (on an empty list the source's debug build
would underflow; release wraps and `get` yields `None`, i.e. no trim). -/
def uncommitted_writes [DecidableEq P] (s : DataZoneStream P)
    (chain : Option (List (DataZone P))) : List (DataZone P) :=
  match chain with
  | none =>
    s.pending_zones ++ (match s.cur_zone with | some z => [z] | none => [])
  | some zonelist0 =>
    let first_ident : Option (Option P) :=
      match s.pending_zones.head? with
      | some dz => some dz.ident
      | none =>
        match s.cur_zone with
        | some cz => some cz.ident
        | none => none
    let zonelist1 :=
      match first_ident with
      | none => zonelist0
      | some fid =>
        match zonelist0.findIdx? (fun (z : DataZone P) => decide (z.ident = fid)) with
        | some start_match =>
          -- the zip/merge loop body runs at most once, then breaks
          let merged :=
            match zonelist0[start_match]?, s.pending_zones.head? with
            | some inner, some mine =>
              match inner.merge_zone mine with
              | some new_inner => (zonelist0.set start_match new_inner, 1)
              | none => (zonelist0, 0)
            | _, _ => (zonelist0, 0)
          let zonelist := merged.1
          let merge_count := merged.2
          if s.pending_zones.length < merge_count then
            zonelist ++ s.pending_zones.drop merge_count ++
              (match s.cur_zone with | some z => [z] | none => [])
          else
            match s.cur_zone with
            | some cz =>
              match zonelist[start_match + merge_count]? with
              | some inner =>
                match inner.merge_zone cz with
                | some new_inner => zonelist.set (start_match + merge_count) new_inner
                | none => zonelist ++ [cz]
              | none => zonelist ++ [cz]
            | none => zonelist
        | none =>
          zonelist0 ++ s.pending_zones ++
            (match s.cur_zone with | some z => [z] | none => [])
    match zonelist1.getLast? with
    | some maybe_slack =>
      if maybe_slack.ident = none ∧ maybe_slack.length = 0 then
        zonelist1.dropLast
      else zonelist1
    | none => zonelist1

end DataZoneStream

/-! ## Zone invariant and accounting observers -/

/-- The `DataZone` invariant stated in the spec:
`length == committed + uncommitted`. -/
def ZoneInv {P : Type} (z : DataZone P) : Prop :=
  z.length = z.committed_length + z.uncommitted_length

instance {P : Type} (z : DataZone P) : Decidable (ZoneInv z) := by
  unfold ZoneInv; infer_instance

/-- The ordered zone list a stream holds: pending zones then the current
zone.  `DataZoneStream.uncommitted_writes s none` returns exactly this. -/
def streamZones {P : Type} (s : DataZoneStream P) : List (DataZone P) :=
  s.pending_zones ++ (match s.cur_zone with | some z => [z] | none => [])

/-- Sum of `committed_length` over a zone list. -/
def sumCommitted {P : Type} (l : List (DataZone P)) : Nat :=
  (l.map (·.committed_length)).sum

/-- Ghost observer (not in the source): the total `committed_length`
carried by the zones that the `DataZoneStream::write_committed` loop
pops off the pending queue — bytes whose commitment the snapshot no
longer reports.  Mirrors the recursion of `commitPending` exactly. -/
def commitPopped {P : Type} : List (DataZone P) → Nat → Nat
  | [], _ => 0
  | z :: rest, n =>
    let step := z.write_committed n
    match step.2 with
    | none => 0
    | some r =>
      if r = 0 then 0
      else step.1.committed_length + commitPopped rest r

/-- The operations claim C3 quantifies over. -/
inductive StreamOp : Type where
  | begin_data_zone (ident : Nat)
  | write_buffered (len : Nat)
  | write_committed (len : Nat)
  | end_data_zone
  deriving Repr, DecidableEq

/-- Accumulator for a run: the stream state, the total overhang returned
by `write_committed` calls, the ghost total of popped committed bytes,
and the sum of `write_committed` arguments. -/
structure RunAcc where
  s : DataZoneStream Nat
  overhang_total : Nat
  popped_total : Nat
  commit_total : Nat
  deriving Repr, DecidableEq

def runStep (a : RunAcc) : StreamOp → RunAcc
  | .begin_data_zone i => { a with s := a.s.begin_data_zone i }
  | .write_buffered n => { a with s := a.s.write_buffered n }
  | .write_committed n =>
    let popped := commitPopped a.s.pending_zones n
    let r := a.s.write_committed n
    { s := r.1,
      overhang_total := a.overhang_total + r.2.getD 0,
      popped_total := a.popped_total + popped,
      commit_total := a.commit_total + n }
  | .end_data_zone => { a with s := a.s.end_data_zone }

/-- Run a sequence of operations on a fresh `DataZoneStream`. -/
def runOps (ops : List StreamOp) : RunAcc :=
  ops.foldl runStep ⟨DataZoneStream.new, 0, 0, 0⟩

/-! ## DataZone lemmas -/

theorem mem_streamZones {P : Type} {s : DataZoneStream P} {z : DataZone P} :
    z ∈ streamZones s ↔ z ∈ s.pending_zones ∨ s.cur_zone = some z := by
  unfold streamZones
  rcases h : s.cur_zone with _ | cz
  · simp [eq_comm]
  · simp [eq_comm]

theorem write_committed_committed_eq {P : Type} (z : DataZone P) (n : Nat) :
    (z.write_committed n).1.committed_length + ((z.write_committed n).2.getD 0)
      = z.committed_length + n := by
  unfold DataZone.write_committed
  split <;> simp <;> omega

theorem write_committed_inv {P : Type} (z : DataZone P) (n : Nat)
    (h : ZoneInv z) : ZoneInv (z.write_committed n).1 := by
  unfold DataZone.write_committed ZoneInv at *
  split <;> simp <;> omega

theorem commitPending_sum {P : Type} (p : List (DataZone P)) (n : Nat) :
    sumCommitted (DataZoneStream.commitPending p n).1 + commitPopped p n
        + ((DataZoneStream.commitPending p n).2.getD 0)
      = sumCommitted p + n := by
  induction p generalizing n with
  | nil => simp [DataZoneStream.commitPending, commitPopped]
  | cons z rest ih =>
    simp only [DataZoneStream.commitPending, commitPopped]
    rcases hov : (z.write_committed n).2 with _ | r
    · have := write_committed_committed_eq z n
      rw [hov] at this
      simp [sumCommitted] at this ⊢
      omega
    · have := write_committed_committed_eq z n
      rw [hov] at this
      by_cases hr : r = 0
      · subst hr
        simp [sumCommitted] at this ⊢
        omega
      · simp only [if_neg hr]
        have hrec := ih r
        simp [sumCommitted] at this hrec ⊢
        omega

theorem commitPending_inv {P : Type} (p : List (DataZone P)) (n : Nat)
    (h : ∀ z ∈ p, ZoneInv z) :
    ∀ z ∈ (DataZoneStream.commitPending p n).1, ZoneInv z := by
  induction p generalizing n with
  | nil => intro z hz; simp [DataZoneStream.commitPending] at hz
  | cons z rest ih =>
    simp only [DataZoneStream.commitPending]
    rcases hov : (z.write_committed n).2 with _ | r
    · intro w hw
      rcases List.mem_cons.mp hw with hw | hw
      · subst hw; exact write_committed_inv z n (h z (by simp))
      · exact h w (by simp [hw])
    · by_cases hr : r = 0
      · subst hr
        intro w hw
        rcases List.mem_cons.mp hw with hw | hw
        · subst hw; exact write_committed_inv z n (h z (by simp))
        · exact h w (by simp [hw])
      · simp only [if_neg hr]
        exact ih r (fun w hw => h w (by simp [hw]))

/-- One `write_committed` step conserves committed bytes: what the
snapshot reports afterwards, plus the returned overhang, plus the ghost
popped total, accounts for exactly the committed amount. -/
theorem stream_write_committed_sum (s : DataZoneStream Nat) (n : Nat) :
    sumCommitted (streamZones (s.write_committed n).1)
        + commitPopped s.pending_zones n
        + ((s.write_committed n).2.getD 0)
      = sumCommitted (streamZones s) + n := by
  have hpend := commitPending_sum s.pending_zones n
  unfold DataZoneStream.write_committed
  rcases hcp : DataZoneStream.commitPending s.pending_zones n with ⟨p, res⟩
  rw [hcp] at hpend
  rcases res with _ | r
  · simp [streamZones, sumCommitted] at hpend ⊢
    cases s.cur_zone <;> simp [sumCommitted] <;> omega
  · by_cases hr : r > 0
    · simp only [if_pos hr]
      rcases hcur : s.cur_zone with _ | cz
      · simp [streamZones, sumCommitted, hcur] at hpend ⊢
        omega
      · have hz := write_committed_committed_eq cz r
        simp [streamZones, sumCommitted, hcur] at hpend ⊢
        omega
    · simp only [if_neg hr]
      have : r = 0 := by omega
      subst this
      simp [streamZones, sumCommitted] at hpend ⊢
      cases s.cur_zone <;> simp [sumCommitted] <;> omega

theorem stream_write_committed_inv (s : DataZoneStream Nat) (n : Nat)
    (h : ∀ z ∈ streamZones s, ZoneInv z) :
    ∀ z ∈ streamZones (s.write_committed n).1, ZoneInv z := by
  have hpend : ∀ z ∈ s.pending_zones, ZoneInv z :=
    fun z hz => h z (mem_streamZones.mpr (Or.inl hz))
  have hcurinv : ∀ cz, s.cur_zone = some cz → ZoneInv cz :=
    fun cz hc => h cz (mem_streamZones.mpr (Or.inr hc))
  have hpend' := commitPending_inv s.pending_zones n hpend
  unfold DataZoneStream.write_committed
  rcases hcp : DataZoneStream.commitPending s.pending_zones n with ⟨p, res⟩
  rw [hcp] at hpend'
  rcases res with _ | r
  · intro z hz
    rw [mem_streamZones] at hz
    rcases hz with hz | hz
    · exact hpend' z hz
    · exact hcurinv z hz
  · by_cases hr : r > 0
    · rcases hcur : s.cur_zone with _ | cz
      · simp only [if_pos hr, hcur]
        intro z hz
        rw [mem_streamZones] at hz
        rcases hz with hz | hz
        · exact hpend' z hz
        · simp at hz
      · simp only [if_pos hr, hcur]
        intro z hz
        rw [mem_streamZones] at hz
        rcases hz with hz | hz
        · exact hpend' z hz
        · injection hz with hz
          rw [← hz]
          exact write_committed_inv cz r (hcurinv cz hcur)
    · simp only [if_neg hr]
      intro z hz
      rw [mem_streamZones] at hz
      rcases hz with hz | hz
      · exact hpend' z hz
      · exact hcurinv z hz

theorem end_data_zone_sum (s : DataZoneStream Nat)
    (h : ∀ z ∈ streamZones s, ZoneInv z) :
    sumCommitted (streamZones s.end_data_zone) = sumCommitted (streamZones s) := by
  unfold DataZoneStream.end_data_zone
  rcases hcur : s.cur_zone with _ | cz
  · simp [streamZones, sumCommitted, hcur, DataZone.slack_zone]
  · by_cases hid : cz.ident.isSome
    · simp [streamZones, sumCommitted, hcur, hid, DataZone.slack_zone]
    · by_cases hlen : cz.length > 0
      · simp [streamZones, sumCommitted, hcur, hid, hlen, DataZone.slack_zone]
      · have hz := h cz (by simp [streamZones, hcur])
        have : cz.committed_length = 0 := by
          unfold ZoneInv at hz; omega
        simp [streamZones, sumCommitted, hcur, hid, hlen, DataZone.slack_zone, this]

theorem end_data_zone_inv (s : DataZoneStream Nat)
    (h : ∀ z ∈ streamZones s, ZoneInv z) :
    ∀ z ∈ streamZones s.end_data_zone, ZoneInv z := by
  intro z hz
  have hslack : ZoneInv (DataZone.slack_zone (P := Nat)) := by
    simp [ZoneInv, DataZone.slack_zone]
  rw [mem_streamZones] at hz
  unfold DataZoneStream.end_data_zone at hz
  simp only [] at hz
  rcases hz with hz | hz
  · rcases hcur : s.cur_zone with _ | cz
    · rw [hcur] at hz
      exact h z (mem_streamZones.mpr (Or.inl hz))
    · rw [hcur] at hz
      have hcz := h cz (mem_streamZones.mpr (Or.inr hcur))
      by_cases hid : cz.ident.isSome
      · simp [hid] at hz
        rcases hz with hz | hz
        · exact h z (mem_streamZones.mpr (Or.inl hz))
        · subst hz; exact hcz
      · by_cases hlen : cz.length > 0
        · simp [hid, hlen] at hz
          rcases hz with hz | hz
          · exact h z (mem_streamZones.mpr (Or.inl hz))
          · subst hz; exact hcz
        · simp [hid, hlen] at hz
          exact h z (mem_streamZones.mpr (Or.inl hz))
  · injection hz with hz
    rw [← hz]
    exact hslack

theorem write_buffered_sum (s : DataZoneStream Nat) (n : Nat) :
    sumCommitted (streamZones (s.write_buffered n))
      = sumCommitted (streamZones s) := by
  unfold DataZoneStream.write_buffered
  rcases hcur : s.cur_zone with _ | cz
  · rfl
  · simp [streamZones, sumCommitted, hcur, DataZone.write_buffered]

theorem write_buffered_inv (s : DataZoneStream Nat) (n : Nat)
    (h : ∀ z ∈ streamZones s, ZoneInv z) :
    ∀ z ∈ streamZones (s.write_buffered n), ZoneInv z := by
  unfold DataZoneStream.write_buffered
  rcases hcur : s.cur_zone with _ | cz
  · exact h
  · intro z hz
    rw [mem_streamZones] at hz
    rcases hz with hz | hz
    · exact h z (mem_streamZones.mpr (Or.inl hz))
    · injection hz with hz
      rw [← hz]
      have hcz := h cz (mem_streamZones.mpr (Or.inr hcur))
      unfold ZoneInv DataZone.write_buffered at *
      simp
      omega

theorem begin_sum (s : DataZoneStream Nat) (i : Nat)
    (h : ∀ z ∈ streamZones s, ZoneInv z) :
    sumCommitted (streamZones (s.begin_data_zone i))
      = sumCommitted (streamZones s) := by
  have hend := end_data_zone_sum s h
  unfold DataZoneStream.begin_data_zone
  simp [streamZones, sumCommitted, DataZone.new] at hend ⊢
  simp [DataZoneStream.end_data_zone, streamZones, sumCommitted,
    DataZone.slack_zone] at hend ⊢
  omega

theorem begin_inv (s : DataZoneStream Nat) (i : Nat)
    (h : ∀ z ∈ streamZones s, ZoneInv z) :
    ∀ z ∈ streamZones (s.begin_data_zone i), ZoneInv z := by
  have hend := end_data_zone_inv s h
  unfold DataZoneStream.begin_data_zone
  intro z hz
  rw [mem_streamZones] at hz
  rcases hz with hz | hz
  · exact hend z (mem_streamZones.mpr (Or.inl hz))
  · injection hz with hz
    rw [← hz]
    simp [ZoneInv, DataZone.new]

/-- The invariant + conservation property maintained across a run. -/
def GoodAcc (a : RunAcc) : Prop :=
  (∀ z ∈ streamZones a.s, ZoneInv z) ∧
    sumCommitted (streamZones a.s) + a.overhang_total + a.popped_total
      = a.commit_total

theorem runStep_good (a : RunAcc) (op : StreamOp) (h : GoodAcc a) :
    GoodAcc (runStep a op) := by
  obtain ⟨hinv, hsum⟩ := h
  cases op with
  | begin_data_zone i =>
    refine ⟨begin_inv a.s i hinv, ?_⟩
    have := begin_sum a.s i hinv
    show sumCommitted (streamZones (a.s.begin_data_zone i))
        + a.overhang_total + a.popped_total = a.commit_total
    omega
  | write_buffered n =>
    refine ⟨write_buffered_inv a.s n hinv, ?_⟩
    have := write_buffered_sum a.s n
    show sumCommitted (streamZones (a.s.write_buffered n))
        + a.overhang_total + a.popped_total = a.commit_total
    omega
  | write_committed n =>
    refine ⟨stream_write_committed_inv a.s n hinv, ?_⟩
    have := stream_write_committed_sum a.s n
    show sumCommitted (streamZones (a.s.write_committed n).1)
        + (a.overhang_total + ((a.s.write_committed n).2.getD 0))
        + (a.popped_total + commitPopped a.s.pending_zones n)
      = a.commit_total + n
    omega
  | end_data_zone =>
    refine ⟨end_data_zone_inv a.s hinv, ?_⟩
    have := end_data_zone_sum a.s hinv
    show sumCommitted (streamZones a.s.end_data_zone)
        + a.overhang_total + a.popped_total = a.commit_total
    omega

theorem foldl_runStep_good (ops : List StreamOp) :
    ∀ a, GoodAcc a → GoodAcc (ops.foldl runStep a) := by
  induction ops with
  | nil => intro a h; simpa using h
  | cons op rest ih => intro a h; exact ih _ (runStep_good a op h)

theorem runOps_good (ops : List StreamOp) : GoodAcc (runOps ops) := by
  have base : GoodAcc ⟨DataZoneStream.new, 0, 0, 0⟩ := by
    constructor
    · intro z hz; simp [streamZones, DataZoneStream.new] at hz
    · simp [streamZones, sumCommitted, DataZoneStream.new]
  exact foldl_runStep_good ops _ base

/-! ## Claims C3, C6, C7 -/

/-- Claim C3, counterexample to the claim as stated: after
`begin 0; write_buffered 1; begin 1; write_committed 2`, the first
pending zone absorbs 1 byte, is fully consumed and popped, and the
overflow of 1 byte is returned as overhang by the current (empty) zone.
The popped zone's committed byte has left the ledger, so the snapshot's
committed sum (0) plus the returned overhang (1) is 1, not the 2 bytes
passed to `write_committed`. -/
theorem claim_C3_counterexample :
    ¬ (sumCommitted ((runOps [StreamOp.begin_data_zone 0,
            StreamOp.write_buffered 1, StreamOp.begin_data_zone 1,
            StreamOp.write_committed 2]).s.uncommitted_writes none)
          + (runOps [StreamOp.begin_data_zone 0, StreamOp.write_buffered 1,
              StreamOp.begin_data_zone 1,
              StreamOp.write_committed 2]).overhang_total
        = (runOps [StreamOp.begin_data_zone 0, StreamOp.write_buffered 1,
            StreamOp.begin_data_zone 1,
            StreamOp.write_committed 2]).commit_total) := by
  decide

/-- Claim C3 as amended: for every finite sequence of
`begin_data_zone` / `write_buffered` / `write_committed` /
`end_data_zone` operations on a `DataZoneStream`, the sum of
`committed_length` over the snapshot (`uncommitted_writes` with no
chain), plus every overhang value returned by the `write_committed`
calls, plus the committed bytes carried by pending zones that
`write_committed` fully consumed and popped off the ledger, equals the
sum of the arguments passed to `write_committed`. -/
theorem claim_C3_amended (ops : List StreamOp) :
    sumCommitted ((runOps ops).s.uncommitted_writes none)
        + (runOps ops).overhang_total + (runOps ops).popped_total
      = (runOps ops).commit_total := by
  have hg := runOps_good ops
  have huw : (runOps ops).s.uncommitted_writes none = streamZones (runOps ops).s :=
    rfl
  rw [huw]
  exact hg.2

/-- Claim C6: for every `DataZone`, `length = committed + uncommitted`
holds after `new`, `for_resumption` and `slack_zone` and is preserved by
`write_through`, `write_buffered`, `write_committed` (any argument) and
`merge_zone`; moreover `committed_length ≤ length`, the `length` field
never decreases under any of the operations, and `committed_length`
never decreases under the three write operations (under `merge_zone` it
is the minimum of the two inputs, as claim C7 records). -/
theorem claim_C6_invariants (z w : DataZone Nat) (n i c : Nat)
    (hz : ZoneInv z) (hw : ZoneInv w) :
    (ZoneInv (DataZone.new i) ∧ ZoneInv (DataZone.for_resumption i c) ∧
      ZoneInv (DataZone.slack_zone (P := Nat))) ∧
    (ZoneInv (z.write_through n) ∧ ZoneInv (z.write_buffered n) ∧
      ZoneInv (z.write_committed n).1 ∧
      (∀ m, z.merge_zone w = some m → ZoneInv m)) ∧
    z.committed_length ≤ z.length ∧
    (z.length ≤ (z.write_through n).length ∧
      z.length ≤ (z.write_buffered n).length ∧
      z.length ≤ (z.write_committed n).1.length ∧
      (∀ m, z.merge_zone w = some m → z.length ≤ m.length ∧ w.length ≤ m.length)) ∧
    (z.committed_length ≤ (z.write_through n).committed_length ∧
      z.committed_length ≤ (z.write_buffered n).committed_length ∧
      z.committed_length ≤ (z.write_committed n).1.committed_length) := by
  have hmerge : ∀ m, z.merge_zone w = some m →
      m.ident = z.ident ∧ m.length = max z.length w.length ∧
        m.committed_length = min z.committed_length w.committed_length ∧
        m.uncommitted_length
          = max z.length w.length - min z.committed_length w.committed_length := by
    intro m hm
    unfold DataZone.merge_zone at hm
    split at hm
    · exact absurd hm (by simp)
    · simp at hm
      rw [← hm]
      simp

  refine ⟨⟨?_, ?_, ?_⟩, ⟨?_, ?_, ?_, ?_⟩, ?_, ⟨?_, ?_, ?_, ?_⟩, ⟨?_, ?_, ?_⟩⟩
  · simp [ZoneInv, DataZone.new]
  · simp [ZoneInv, DataZone.for_resumption]
  · simp [ZoneInv, DataZone.slack_zone]
  · unfold ZoneInv DataZone.write_through at *; simp; omega
  · unfold ZoneInv DataZone.write_buffered at *; simp; omega
  · exact write_committed_inv z n hz
  · intro m hm
    obtain ⟨_, hl, hc, hu⟩ := hmerge m hm
    unfold ZoneInv at hz hw ⊢
    rw [hl, hc, hu]
    rw [Nat.max_def, Nat.min_def]
    split <;> split <;> omega
  · unfold ZoneInv at hz; omega
  · unfold DataZone.write_through; simp
  · unfold DataZone.write_buffered; simp
  · unfold DataZone.write_committed; split <;> simp
  · intro m hm
    obtain ⟨_, hl, _, _⟩ := hmerge m hm
    rw [hl]
    exact ⟨Nat.le_max_left _ _, Nat.le_max_right _ _⟩
  · unfold DataZone.write_through; simp
  · unfold DataZone.write_buffered; simp
  · unfold DataZone.write_committed; split <;> simp

/-- Witness for claim C6 at concrete zones. -/
theorem claim_C6_witness :
    ZoneInv (⟨some 0, 5, 2, 3⟩ : DataZone Nat) ∧
    ZoneInv (⟨some 0, 7, 1, 6⟩ : DataZone Nat) ∧
    ((ZoneInv (DataZone.new 1) ∧ ZoneInv (DataZone.for_resumption 1 2) ∧
        ZoneInv (DataZone.slack_zone (P := Nat))) ∧
      (ZoneInv ((⟨some 0, 5, 2, 3⟩ : DataZone Nat).write_through 4) ∧
        ZoneInv ((⟨some 0, 5, 2, 3⟩ : DataZone Nat).write_buffered 4) ∧
        ZoneInv ((⟨some 0, 5, 2, 3⟩ : DataZone Nat).write_committed 4).1 ∧
        (∀ m, (⟨some 0, 5, 2, 3⟩ : DataZone Nat).merge_zone ⟨some 0, 7, 1, 6⟩
            = some m → ZoneInv m)) ∧
      (⟨some 0, 5, 2, 3⟩ : DataZone Nat).committed_length
          ≤ (⟨some 0, 5, 2, 3⟩ : DataZone Nat).length ∧
      ((⟨some 0, 5, 2, 3⟩ : DataZone Nat).length
          ≤ ((⟨some 0, 5, 2, 3⟩ : DataZone Nat).write_through 4).length ∧
        (⟨some 0, 5, 2, 3⟩ : DataZone Nat).length
          ≤ ((⟨some 0, 5, 2, 3⟩ : DataZone Nat).write_buffered 4).length ∧
        (⟨some 0, 5, 2, 3⟩ : DataZone Nat).length
          ≤ ((⟨some 0, 5, 2, 3⟩ : DataZone Nat).write_committed 4).1.length ∧
        (∀ m, (⟨some 0, 5, 2, 3⟩ : DataZone Nat).merge_zone ⟨some 0, 7, 1, 6⟩
            = some m →
          (⟨some 0, 5, 2, 3⟩ : DataZone Nat).length ≤ m.length ∧
            (⟨some 0, 7, 1, 6⟩ : DataZone Nat).length ≤ m.length)) ∧
      ((⟨some 0, 5, 2, 3⟩ : DataZone Nat).committed_length
          ≤ ((⟨some 0, 5, 2, 3⟩ : DataZone Nat).write_through 4).committed_length ∧
        (⟨some 0, 5, 2, 3⟩ : DataZone Nat).committed_length
          ≤ ((⟨some 0, 5, 2, 3⟩ : DataZone Nat).write_buffered 4).committed_length ∧
        (⟨some 0, 5, 2, 3⟩ : DataZone Nat).committed_length
          ≤ ((⟨some 0, 5, 2, 3⟩ : DataZone Nat).write_committed 4).1.committed_length)) :=
  ⟨by decide, by decide,
    claim_C6_invariants ⟨some 0, 5, 2, 3⟩ ⟨some 0, 7, 1, 6⟩ 4 1 2
      (by decide) (by decide)⟩

/-- Claim C7: `merge_zone` yields, for equal identities, the zone with
`length = max`, `committed = min`, `uncommitted = length − committed`,
and yields none for unequal identities. -/
theorem claim_C7_merge_zone {P : Type} [DecidableEq P] (za zb : DataZone P) :
    za.merge_zone zb =
      (if za.ident = zb.ident then
        some { ident := za.ident,
               length := max za.length zb.length,
               committed_length := min za.committed_length zb.committed_length,
               uncommitted_length :=
                 max za.length zb.length
                   - min za.committed_length zb.committed_length }
      else none) := by
  unfold DataZone.merge_zone
  by_cases h : za.ident = zb.ident <;> simp [h]

/-! ## Claim C4: the cross-stage snapshot merge -/

/-- Upstream stream reached by
`begin 10; write_buffered 2; begin 20; write_buffered 4; end`:
pending zones `(10: len 2, unc 2)` and `(20: len 4, unc 4)`, current
zone slack. -/
def c4Up : DataZoneStream Nat :=
  (runOps [StreamOp.begin_data_zone 10, StreamOp.write_buffered 2,
    StreamOp.begin_data_zone 20, StreamOp.write_buffered 4,
    StreamOp.end_data_zone]).s

/-- Downstream snapshot (same zones, downstream has committed 1 byte of
zone 10 and buffered only 3 bytes of zone 20 so far):
`[(10: len 2, com 1, unc 1), (20: len 3, unc 3), slack]`. -/
def c4Chain : List (DataZone Nat) :=
  (runOps [StreamOp.begin_data_zone 10, StreamOp.write_buffered 2,
    StreamOp.begin_data_zone 20, StreamOp.write_buffered 3,
    StreamOp.end_data_zone,
    StreamOp.write_committed 1]).s.uncommitted_writes none

/-- Claim C4, evaluation of the code at the failing input: the upstream
ledger holds zone 20 with `length = 4` (4 uncommitted bytes), but the
chained snapshot reports zone 20 exactly as the chain had it
(`length = 3`): the pairwise-merge loop in
`DataZoneStream::uncommitted_writes` breaks unconditionally after the
first pair, and the branch meant to copy the unmerged local zones is
guarded by `pending_zones.len() < merge_count`, which never holds, so
the local zone 20 is dropped instead of being merged or appended as the
claim (and the function's own documentation) require. -/
theorem claim_C4_merge_loop_drops_zones :
    c4Chain = [⟨some 10, 2, 1, 1⟩, ⟨some 20, 3, 0, 3⟩, ⟨none, 0, 0, 0⟩] ∧
    (⟨some 20, 4, 0, 4⟩ : DataZone Nat) ∈ streamZones c4Up ∧
    c4Up.uncommitted_writes (some c4Chain)
      = [⟨some 10, 2, 0, 2⟩, ⟨some 20, 3, 0, 3⟩, ⟨none, 0, 0, 0⟩] ∧
    (∀ zz ∈ c4Up.uncommitted_writes (some c4Chain),
      ¬(zz.ident = some 20 ∧ zz.length = 4)) := by
  decide

/-! ## Claim C10: the LimitingWriter -/

/-- `spanning.rs` `LimitingWriter`.  The inner writer is modelled by the
log of buffers forwarded to it (an inner writer that accepts every
buffer whole). -/
structure LimitingWriter where
  remain : Nat
  inner : List (List Nat)
  deriving Repr, DecidableEq

namespace LimitingWriter

/-- `LimitingWriter::wrap`. -/
def wrap (limit : Nat) : LimitingWriter :=
  { remain := limit, inner := [] }

/-- `Write for LimitingWriter::write`: refuse (returning `Ok(0)`) any
buffer longer than the remaining allowance, otherwise debit the full
length and forward the buffer unchanged. -/
def write (w : LimitingWriter) (buf : List Nat) : LimitingWriter × Nat :=
  if buf.length > w.remain then (w, 0)
  else ({ remain := w.remain - buf.length, inner := w.inner ++ [buf] }, buf.length)

end LimitingWriter

/-- Claim C10: a write longer than the remaining limit returns the
dedicated short-write signal 0, leaving the limit and the inner writer
untouched; a write of at most the remaining limit debits the limit by
the full buffer length and forwards the buffer unchanged; no write is
ever partially accepted. -/
theorem claim_C10_limiting_writer (w : LimitingWriter) (buf : List Nat) :
    w.write buf
        = (if buf.length > w.remain then (w, 0)
           else ({ remain := w.remain - buf.length,
                   inner := w.inner ++ [buf] }, buf.length)) ∧
      ((w.write buf).2 = 0 ∨ (w.write buf).2 = buf.length) := by
  unfold LimitingWriter.write
  refine ⟨rfl, ?_⟩
  by_cases h : buf.length > w.remain <;> simp [h]

/-! ## Claim C8: the record-blocking stage (`blocking.rs`) -/

/-- Ghost provenance tag for a record handed to the inner sink: which of
the two call sites in `blocking.rs` emitted it.  `shortcut` is the
zero-copy loop inside `write`; `blockbuf` is `empty_block` flushing the
internal record buffer. -/
inductive RecSrc : Type where
  | shortcut
  | blockbuf
  deriving Repr, DecidableEq

/-- `blocking.rs` `BlockingWriter`.  As in the source constructor, the
`blocking_factor` field stores `factor * 512` (the record size `R`).
The inner sink is modelled by the log of buffers passed to its `write`,
each tagged with the emitting call site (ghost information). -/
structure BlockingWriter where
  blocking_factor : Nat
  block : List Nat
  innerLog : List (RecSrc × List Nat)
  datazone_stream : DataZoneStream Nat
  deriving Repr, DecidableEq

namespace BlockingWriter

/-- `BlockingWriter::new_with_factor`. -/
def new_with_factor (factor : Nat) : BlockingWriter :=
  { blocking_factor := factor * 512, block := [], innerLog := [],
    datazone_stream := DataZoneStream.new }

/-- `BlockingWriter::fill_block`.  The source binds
`let block_space = self.blocking_factor - self.block.len()`; the
difference is written out at each use site here. -/
def fill_block (s : BlockingWriter) (buf : List Nat) :
    BlockingWriter × Option (List Nat) :=
  if s.blocking_factor - s.block.length ≥ buf.length then
    ({ s with
        block := s.block ++ buf,
        datazone_stream := s.datazone_stream.write_buffered buf.length }, none)
  else
    ({ s with
        block := s.block ++ buf.take (s.blocking_factor - s.block.length),
        datazone_stream := s.datazone_stream.write_buffered
          (s.blocking_factor - s.block.length) },
      some (buf.drop (s.blocking_factor - s.block.length)))

/-- `BlockingWriter::empty_block`.  `inner.write_all(&block[..R])` is
modelled by appending the record to the log (the inner sink accepts the
buffer whole, as `Cursor` does in the source's tests). -/
def empty_block (s : BlockingWriter) : BlockingWriter :=
  if s.block.length ≥ s.blocking_factor then
    { s with
        innerLog := s.innerLog
          ++ [(RecSrc.blockbuf, s.block.take s.blocking_factor)],
        datazone_stream := (s.datazone_stream.write_committed s.blocking_factor).1,
        block := [] }
  else s

/-- The shortcut loop inside `BlockingWriter::write`
(`while shortcircuit_writes <= buf.len() - R`), with the inner sink
accepting each `R`-byte slice whole.  The `0 < R` conjunct in the guard
is a termination artifact: with `R = 0` the source loop would not
terminate either. -/
def shortcutLoop (s : BlockingWriter) (buf : List Nat) (sc : Nat) :
    BlockingWriter × Nat :=
  if h : 0 < s.blocking_factor ∧ sc + s.blocking_factor ≤ buf.length then
    shortcutLoop
      { s with
          innerLog := s.innerLog
            ++ [(RecSrc.shortcut, (buf.drop sc).take s.blocking_factor)],
          datazone_stream := s.datazone_stream.write_through s.blocking_factor }
      buf (sc + s.blocking_factor)
  else (s, sc)
termination_by buf.length - sc
decreasing_by
  omega

/-- `Write for BlockingWriter::write`.  The source binds
`self.empty_block()?` once up front; here the (pure) `empty_block`
result is written out at each use site. -/
def write (s0 : BlockingWriter) (buf : List Nat) : BlockingWriter × Nat :=
  if buf.length = 0 then (s0.empty_block, 0)
  else if s0.empty_block.block.length = 0
      ∧ buf.length ≥ s0.empty_block.blocking_factor then
    s0.empty_block.shortcutLoop buf 0
  else
    match s0.empty_block.fill_block buf with
    | (s1, none) => (s1, buf.length)
    | (s1, some remain) => (s1, buf.length - remain.length)

/-- `std::io::Write::write_all` over `BlockingWriter::write`: repeat
until the buffer is consumed.  The guard on the returned count is a
termination artifact; `write` always consumes at least one byte of a
nonempty buffer when `R > 0` (`assert!(write_size > 0)` in the source),
and a zero return would abort `write_all` with `WriteZero`. -/
def write_all (s : BlockingWriter) (buf : List Nat) : BlockingWriter :=
  if hb : buf = [] then s
  else
    if h : 0 < (s.write buf).2 ∧ (s.write buf).2 ≤ buf.length then
      (s.write buf).1.write_all (buf.drop (s.write buf).2)
    else (s.write buf).1
termination_by buf.length
decreasing_by
  simp only [List.length_drop]
  have : 0 < buf.length := List.length_pos.mpr hb
  omega

/-- `RecoverableWrite::begin_data_zone` for `BlockingWriter`: record in
the local stream and forward to the inner sink (whose own ledger is
empty in this model, as for the source's `UnbufferedWriter`/`Cursor`). -/
def begin_data_zone (s : BlockingWriter) (ident : Nat) : BlockingWriter :=
  { s with datazone_stream := s.datazone_stream.begin_data_zone ident }

/-- `RecoverableWrite::end_data_zone` for `BlockingWriter`. -/
def end_data_zone (s : BlockingWriter) : BlockingWriter :=
  { s with datazone_stream := s.datazone_stream.end_data_zone }

/-- `resume_data_zone` on a `BlockingWriter`: the source's
`RecoverableWrite for BlockingWriter` impl (blocking.rs lines 88-103)
does NOT override `resume_data_zone`, so the trait's default — an empty
body (spanning.rs lines 380-382) — applies: nothing is recorded locally
and nothing is forwarded to the inner sink. -/
def resume_data_zone (s : BlockingWriter) (_ident : Nat) (_committed : Nat) :
    BlockingWriter :=
  s

/-- `RecoverableWrite::uncommitted_writes` for `BlockingWriter`: chain
the inner sink's snapshot (empty for an unbuffered inner sink). -/
def uncommitted_writes (s : BlockingWriter) : List (DataZone Nat) :=
  s.datazone_stream.uncommitted_writes (some [])

/-- `Write::flush` for `BlockingWriter`: end the zone, zero-pad the
record buffer to `R` (`block.resize(R, 0)`), flush it, flush inner
(a no-op on the log).  The source's intermediate `let` bindings are
written out. -/
def flush (s0 : BlockingWriter) : BlockingWriter :=
  if s0.end_data_zone.block.length < s0.end_data_zone.blocking_factor then
    ({ s0.end_data_zone with
        block := s0.end_data_zone.block
          ++ List.replicate (s0.end_data_zone.blocking_factor
                - s0.end_data_zone.block.length) 0 }).empty_block
  else s0.end_data_zone.empty_block

end BlockingWriter

/-- The byte stream handed to the inner sink: concatenation of all
records passed to its `write`. -/
def logBytes (s : BlockingWriter) : List Nat :=
  (s.innerLog.map (fun pr => pr.2)).flatten

/-- Invariant of the blocking stage relative to the bytes accepted so
far: record size is `R`, the partial record never exceeds `R`, every
record handed down is exactly `R` bytes, and the inner stream followed
by the partial record is exactly the accepted byte stream. -/
def BWInv (R : Nat) (s : BlockingWriter) (data : List Nat) : Prop :=
  s.blocking_factor = R ∧ s.block.length ≤ R ∧
  (∀ pr ∈ s.innerLog, pr.2.length = R) ∧
  logBytes s ++ s.block = data

theorem logBytes_append (s : BlockingWriter) (tag : RecSrc) (bytes : List Nat)
    (t : DataZoneStream Nat) :
    logBytes
        { s with
            innerLog := s.innerLog ++ [(tag, bytes)],
            datazone_stream := t }
      = logBytes s ++ bytes := by
  simp [logBytes]

theorem records_length_flatten (R : Nat) :
    ∀ (l : List (RecSrc × List Nat)), (∀ pr ∈ l, pr.2.length = R) →
      ((l.map (fun pr => pr.2)).flatten).length = l.length * R := by
  intro l
  induction l with
  | nil => intro _; simp
  | cons pr rest ih =>
    intro h
    simp only [List.map_cons, List.flatten_cons, List.length_append,
      List.length_cons]
    rw [h pr (by simp), ih (fun q hq => h q (by simp [hq]))]
    ring

theorem logBytes_length (R : Nat) (s : BlockingWriter)
    (h : ∀ pr ∈ s.innerLog, pr.2.length = R) :
    (logBytes s).length = s.innerLog.length * R :=
  records_length_flatten R s.innerLog h

theorem shortcutLoop_spec (R : Nat) (hR : 0 < R) (buf : List Nat) :
    ∀ (d sc : Nat) (s : BlockingWriter), buf.length - sc ≤ d →
      s.blocking_factor = R → sc ≤ buf.length →
      (s.shortcutLoop buf sc).1.blocking_factor = R ∧
      (s.shortcutLoop buf sc).1.block = s.block ∧
      sc ≤ (s.shortcutLoop buf sc).2 ∧
      (s.shortcutLoop buf sc).2 ≤ buf.length ∧
      ¬((s.shortcutLoop buf sc).2 + R ≤ buf.length) ∧
      (sc + R ≤ buf.length → sc + R ≤ (s.shortcutLoop buf sc).2) ∧
      logBytes (s.shortcutLoop buf sc).1
        = logBytes s ++ (buf.drop sc).take ((s.shortcutLoop buf sc).2 - sc) ∧
      (∀ pr ∈ (s.shortcutLoop buf sc).1.innerLog,
        pr ∈ s.innerLog ∨
          (pr.1 = RecSrc.shortcut ∧
            ∃ k, k + R ≤ buf.length ∧ pr.2 = (buf.drop k).take R)) := by
  intro d
  induction d with
  | zero =>
    intro sc s hd hbf hsc
    rw [BlockingWriter.shortcutLoop]
    have hguard : ¬(0 < s.blocking_factor ∧ sc + s.blocking_factor ≤ buf.length) := by
      rw [hbf]; omega
    rw [dif_neg hguard]
    refine ⟨hbf, rfl, Nat.le_refl _, hsc, by rw [hbf] at hguard; omega,
      by omega, by simp, fun pr hpr => Or.inl hpr⟩
  | succ d ih =>
    intro sc s hd hbf hsc
    rw [BlockingWriter.shortcutLoop]
    by_cases hguard : 0 < s.blocking_factor ∧ sc + s.blocking_factor ≤ buf.length
    · rw [dif_pos hguard]
      rw [hbf] at hguard
      rw [hbf]
      set s1 : BlockingWriter :=
        { blocking_factor := R, block := s.block,
          innerLog := s.innerLog
            ++ [(RecSrc.shortcut, List.take R (List.drop sc buf))],
          datazone_stream := s.datazone_stream.write_through R } with hs1
      have hrec := ih (sc + R) s1 (by omega) (by rw [hs1]) (by omega)
      obtain ⟨h1, h2, h3, h4, h5, h6, h7, h8⟩ := hrec
      have hblk : s1.block = s.block := by rw [hs1]
      have hlog : logBytes s1 = logBytes s ++ List.take R (List.drop sc buf) := by
        rw [hs1]; simp [logBytes]
      have hlogmem : s1.innerLog
          = s.innerLog ++ [(RecSrc.shortcut, List.take R (List.drop sc buf))] := by
        rw [hs1]
      refine ⟨h1, by rw [h2, hblk], by omega, h4, h5, fun _ => by omega, ?_, ?_⟩
      · rw [h7, hlog, List.append_assoc]
        congr 1
        have harith : (s1.shortcutLoop buf (sc + R)).2 - sc
            = R + ((s1.shortcutLoop buf (sc + R)).2 - (sc + R)) := by omega
        rw [harith, List.take_add, List.drop_drop]
      · intro pr hpr
        rcases h8 pr hpr with hmem | hnew
        · rw [hlogmem] at hmem
          rcases List.mem_append.mp hmem with hold | hone
          · exact Or.inl hold
          · simp at hone
            subst hone
            exact Or.inr ⟨rfl, sc, by omega, rfl⟩
        · exact Or.inr hnew
    · rw [dif_neg hguard]
      rw [hbf] at hguard
      refine ⟨hbf, rfl, Nat.le_refl _, hsc, by omega, by omega, by simp,
        fun pr hpr => Or.inl hpr⟩

theorem empty_block_spec (R : Nat) (hR : 0 < R) (s : BlockingWriter)
    (data : List Nat) (h : BWInv R s data) :
    BWInv R s.empty_block data ∧ s.empty_block.block.length < R ∧
      s.empty_block.blocking_factor = R ∧
      (s.empty_block.block = s.block ∨ s.empty_block.block = []) ∧
      (∀ pr ∈ s.empty_block.innerLog,
        pr ∈ s.innerLog ∨ (pr.1 = RecSrc.blockbuf ∧ pr.2 = s.block.take R)) := by
  obtain ⟨hbf, hle, hrecs, hdata⟩ := h
  unfold BlockingWriter.empty_block
  by_cases hfull : s.block.length ≥ s.blocking_factor
  · rw [if_pos hfull]
    rw [hbf] at hfull
    have hblen : s.block.length = R := by omega
    have htake : s.block.take s.blocking_factor = s.block := by
      rw [hbf]
      exact List.take_of_length_le (by omega)
    refine ⟨⟨hbf, by simp [hR], ?_, ?_⟩, by simp [hR], hbf, Or.inr rfl, ?_⟩
    · intro pr hpr
      simp at hpr
      rcases hpr with hpr | hpr
      · exact hrecs pr hpr
      · rw [hpr, htake]
        simpa [hbf] using hblen
    · simp only [logBytes, List.map_append, List.map_cons, List.map_nil,
        List.flatten_append, List.flatten_cons, List.flatten_nil, htake,
        List.append_nil]
      exact hdata
    · intro pr hpr
      simp at hpr
      rcases hpr with hpr | hpr
      · exact Or.inl hpr
      · rw [hpr]
        refine Or.inr ⟨rfl, ?_⟩
        rw [htake]
        show s.block = List.take R s.block
        exact (List.take_of_length_le (by omega)).symm
  · rw [if_neg hfull]
    rw [hbf] at hfull
    exact ⟨⟨hbf, hle, hrecs, hdata⟩, by omega, hbf, Or.inl rfl,
      fun pr hpr => Or.inl hpr⟩

theorem empty_block_bf (s : BlockingWriter) :
    s.empty_block.blocking_factor = s.blocking_factor := by
  unfold BlockingWriter.empty_block
  split <;> rfl

theorem empty_block_log (s : BlockingWriter) :
    ∀ pr ∈ s.empty_block.innerLog,
      pr ∈ s.innerLog
        ∨ (pr.1 = RecSrc.blockbuf ∧ pr.2 = s.block.take s.blocking_factor) := by
  unfold BlockingWriter.empty_block
  by_cases hfull : s.block.length ≥ s.blocking_factor
  · rw [if_pos hfull]
    intro pr hpr
    simp at hpr
    rcases hpr with hpr | hpr
    · exact Or.inl hpr
    · exact Or.inr ⟨by rw [hpr], by rw [hpr]⟩
  · rw [if_neg hfull]
    exact fun pr hpr => Or.inl hpr

theorem fill_block_log (s : BlockingWriter) (buf : List Nat) :
    (s.fill_block buf).1.innerLog = s.innerLog := by
  unfold BlockingWriter.fill_block
  split
  · rfl
  · rfl

theorem write_spec (R : Nat) (hR : 0 < R) (s : BlockingWriter)
    (data buf : List Nat) (h : BWInv R s data) (hbuf : buf ≠ []) :
    BWInv R (s.write buf).1 (data ++ buf.take (s.write buf).2) ∧
      0 < (s.write buf).2 ∧ (s.write buf).2 ≤ buf.length := by
  obtain ⟨hinv0, hlt0, hbfe, hblke, _⟩ := empty_block_spec R hR s data h
  obtain ⟨hbf, hle, hrecs, hdata⟩ := hinv0
  have hbuflen : ¬(buf.length = 0) := fun h0 => hbuf (List.eq_nil_of_length_eq_zero h0)
  unfold BlockingWriter.write
  rw [if_neg hbuflen]
  by_cases hsc : s.empty_block.block.length = 0
      ∧ buf.length ≥ s.empty_block.blocking_factor
  · rw [if_pos hsc]
    have hspec := shortcutLoop_spec R hR buf buf.length 0 s.empty_block
      (by omega) hbf (by omega)
    obtain ⟨g1, g2, g3, g4, g5, g6, g7, g8⟩ := hspec
    have hblock_nil : s.empty_block.block = [] :=
      List.eq_nil_of_length_eq_zero hsc.1
    have hlogse : logBytes s.empty_block = data := by
      rw [hblock_nil] at hdata
      simpa using hdata
    rw [hbf] at hsc
    refine ⟨⟨g1, ?_, ?_, ?_⟩, ?_, g4⟩
    · rw [g2, hblock_nil]
      simp
    · intro pr hpr
      rcases g8 pr hpr with hmem | ⟨_, k, hk, hpr2⟩
      · exact hrecs pr hmem
      · rw [hpr2, List.length_take, List.length_drop]
        omega
    · rw [g7, g2, hblock_nil, hlogse]
      simp
    · have := g6 (by omega)
      omega
  · rw [if_neg hsc]
    have hltR : s.empty_block.block.length < R := hlt0
    by_cases hfit : s.empty_block.blocking_factor - s.empty_block.block.length
        ≥ buf.length
    · have hfb : s.empty_block.fill_block buf
          = ({ s.empty_block with
                block := s.empty_block.block ++ buf,
                datazone_stream :=
                  s.empty_block.datazone_stream.write_buffered buf.length },
             none) := by
        unfold BlockingWriter.fill_block
        rw [if_pos hfit]
      rw [hfb]
      rw [hbf] at hfit
      refine ⟨⟨hbf, ?_, hrecs, ?_⟩, ?_, ?_⟩
      · show (s.empty_block.block ++ buf).length ≤ R
        rw [List.length_append]
        omega
      · show logBytes s.empty_block ++ (s.empty_block.block ++ buf)
          = data ++ buf.take buf.length
        rw [List.take_length, ← List.append_assoc, hdata]
      · show 0 < buf.length
        omega
      · show buf.length ≤ buf.length
        omega
    · have hfb : s.empty_block.fill_block buf
          = ({ s.empty_block with
                block := s.empty_block.block
                  ++ buf.take (s.empty_block.blocking_factor
                        - s.empty_block.block.length),
                datazone_stream :=
                  s.empty_block.datazone_stream.write_buffered
                    (s.empty_block.blocking_factor
                      - s.empty_block.block.length) },
             some (buf.drop (s.empty_block.blocking_factor
                    - s.empty_block.block.length))) := by
        unfold BlockingWriter.fill_block
        rw [if_neg hfit]
      rw [hfb]
      rw [hbf] at hfit
      have hcons : buf.length
            - (buf.drop (s.empty_block.blocking_factor
                - s.empty_block.block.length)).length
          = R - s.empty_block.block.length := by
        rw [List.length_drop, hbf]
        omega
      refine ⟨⟨hbf, ?_, hrecs, ?_⟩, ?_, ?_⟩
      · show (s.empty_block.block
            ++ buf.take (s.empty_block.blocking_factor
                  - s.empty_block.block.length)).length ≤ R
        rw [List.length_append, List.length_take, hbf]
        omega
      · show logBytes s.empty_block
            ++ (s.empty_block.block
              ++ buf.take (s.empty_block.blocking_factor
                    - s.empty_block.block.length))
          = data ++ buf.take (buf.length
              - (buf.drop (s.empty_block.blocking_factor
                    - s.empty_block.block.length)).length)
        rw [hcons, ← List.append_assoc, hdata, hbf]
      · show 0 < buf.length
          - (buf.drop (s.empty_block.blocking_factor
                - s.empty_block.block.length)).length
        rw [hcons]
        omega
      · show buf.length
            - (buf.drop (s.empty_block.blocking_factor
                  - s.empty_block.block.length)).length ≤ buf.length
        omega

theorem write_single_source (R : Nat) (hR : 0 < R) (s : BlockingWriter)
    (buf : List Nat) (hbf : s.blocking_factor = R) :
    ∀ pr ∈ (s.write buf).1.innerLog,
      pr ∈ s.innerLog ∨ (pr.1 = RecSrc.blockbuf ∧ pr.2 = s.block.take R) ∨
        (pr.1 = RecSrc.shortcut
          ∧ ∃ k, k + R ≤ buf.length ∧ pr.2 = (buf.drop k).take R) := by
  have hebl : ∀ pr ∈ s.empty_block.innerLog,
      pr ∈ s.innerLog ∨ (pr.1 = RecSrc.blockbuf ∧ pr.2 = s.block.take R) := by
    intro pr hpr
    rcases empty_block_log s pr hpr with hm | ⟨ht, hb⟩
    · exact Or.inl hm
    · exact Or.inr ⟨ht, by rw [hb, hbf]⟩
  have hbfe : s.empty_block.blocking_factor = R := by rw [empty_block_bf, hbf]
  unfold BlockingWriter.write
  by_cases hlen : buf.length = 0
  · rw [if_pos hlen]
    intro pr hpr
    rcases hebl pr hpr with hm | hnew
    · exact Or.inl hm
    · exact Or.inr (Or.inl hnew)
  · rw [if_neg hlen]
    by_cases hsc : s.empty_block.block.length = 0
        ∧ buf.length ≥ s.empty_block.blocking_factor
    · rw [if_pos hsc]
      obtain ⟨_, _, _, _, _, _, _, g8⟩ :=
        shortcutLoop_spec R hR buf buf.length 0 s.empty_block (by omega) hbfe
          (by omega)
      intro pr hpr
      rcases g8 pr hpr with hm | hnew
      · rcases hebl pr hm with hm2 | hnew2
        · exact Or.inl hm2
        · exact Or.inr (Or.inl hnew2)
      · exact Or.inr (Or.inr hnew)
    · rw [if_neg hsc]
      rcases hfb : s.empty_block.fill_block buf with ⟨s1, res⟩
      have hlog1 : s1.innerLog = s.empty_block.innerLog := by
        have := fill_block_log s.empty_block buf
        rw [hfb] at this
        exact this
      rcases res with _ | remain
      · intro pr hpr
        rw [hlog1] at hpr
        rcases hebl pr hpr with hm | hnew
        · exact Or.inl hm
        · exact Or.inr (Or.inl hnew)
      · intro pr hpr
        rw [hlog1] at hpr
        rcases hebl pr hpr with hm | hnew
        · exact Or.inl hm
        · exact Or.inr (Or.inl hnew)

theorem write_all_spec (R : Nat) (hR : 0 < R) :
    ∀ (d : Nat) (buf : List Nat) (s : BlockingWriter) (data : List Nat),
      buf.length ≤ d → BWInv R s data →
      BWInv R (s.write_all buf) (data ++ buf) := by
  intro d
  induction d with
  | zero =>
    intro buf s data hd h
    have hnil : buf = [] := List.eq_nil_of_length_eq_zero (by omega)
    subst hnil
    rw [BlockingWriter.write_all]
    simpa using h
  | succ d ih =>
    intro buf s data hd h
    rw [BlockingWriter.write_all]
    by_cases hb : buf = []
    · rw [dif_pos hb]
      subst hb
      simpa using h
    · rw [dif_neg hb]
      obtain ⟨hinv, hpos, hle⟩ := write_spec R hR s data buf h hb
      rw [dif_pos ⟨hpos, hle⟩]
      have hbuflen : 0 < buf.length := List.length_pos.mpr hb
      have hrec := ih (buf.drop (s.write buf).2) (s.write buf).1
        (data ++ buf.take (s.write buf).2)
        (by rw [List.length_drop]; omega) hinv
      rw [List.append_assoc, List.take_append_drop] at hrec
      exact hrec

theorem foldl_write_all_spec (R : Nat) (hR : 0 < R) :
    ∀ (bufs : List (List Nat)) (s : BlockingWriter) (data : List Nat),
      BWInv R s data →
      BWInv R (bufs.foldl BlockingWriter.write_all s) (data ++ bufs.flatten) := by
  intro bufs
  induction bufs with
  | nil =>
    intro s data h
    simpa using h
  | cons b rest ih =>
    intro s data h
    simp only [List.foldl_cons, List.flatten_cons]
    have h1 := write_all_spec R hR b.length b s data (Nat.le_refl _) h
    have h2 := ih (s.write_all b) (data ++ b) h1
    rw [List.append_assoc] at h2
    exact h2

theorem flush_spec (R : Nat) (hR : 0 < R) (s : BlockingWriter)
    (data : List Nat) (h : BWInv R s data) :
    (∀ pr ∈ s.flush.innerLog, pr.2.length = R) ∧
      logBytes s.flush = data ++ List.replicate (R - s.block.length) 0 ∧
      s.flush.innerLog.length * R = data.length + (R - s.block.length) := by
  obtain ⟨hbf, hle, hrecs, hdata⟩ := h
  have main : (∀ pr ∈ s.flush.innerLog, pr.2.length = R) ∧
      logBytes s.flush = data ++ List.replicate (R - s.block.length) 0 := by
    unfold BlockingWriter.flush
    by_cases hpad : s.end_data_zone.block.length < s.end_data_zone.blocking_factor
    · rw [if_pos hpad]
      have hpad2 : s.block.length < R := by
        have h1 : s.end_data_zone.block = s.block := rfl
        have h2 : s.end_data_zone.blocking_factor = s.blocking_factor := rfl
        rw [h1, h2, hbf] at hpad
        exact hpad
      have hpadlen :
          (s.block ++ List.replicate (R - s.block.length) 0).length = R := by
        rw [List.length_append, List.length_replicate]
        omega
      have hfull :
          ({ s.end_data_zone with
              block := s.end_data_zone.block
                ++ List.replicate (s.end_data_zone.blocking_factor
                      - s.end_data_zone.block.length) 0
            } : BlockingWriter).block.length
            ≥ ({ s.end_data_zone with
                  block := s.end_data_zone.block
                    ++ List.replicate (s.end_data_zone.blocking_factor
                          - s.end_data_zone.block.length) 0
                } : BlockingWriter).blocking_factor := by
        show (s.block ++ List.replicate (s.blocking_factor - s.block.length) 0).length
          ≥ s.blocking_factor
        rw [hbf]
        rw [hpadlen]
      unfold BlockingWriter.empty_block
      rw [if_pos hfull]
      have htk : List.take
          ({ s.end_data_zone with
              block := s.end_data_zone.block
                ++ List.replicate (s.end_data_zone.blocking_factor
                      - s.end_data_zone.block.length) 0
            } : BlockingWriter).blocking_factor
          ({ s.end_data_zone with
              block := s.end_data_zone.block
                ++ List.replicate (s.end_data_zone.blocking_factor
                      - s.end_data_zone.block.length) 0
            } : BlockingWriter).block
          = s.block ++ List.replicate (R - s.block.length) 0 := by
        show List.take s.blocking_factor
            (s.block ++ List.replicate (s.blocking_factor - s.block.length) 0)
          = s.block ++ List.replicate (R - s.block.length) 0
        rw [hbf]
        exact List.take_of_length_le (by rw [hpadlen])
      constructor
      · intro pr hpr
        simp only [List.mem_append, List.mem_singleton] at hpr
        rcases hpr with hpr | hpr
        · exact hrecs pr hpr
        · rw [hpr, htk]
          exact hpadlen
      · simp only [logBytes, List.map_append, List.map_cons, List.map_nil,
          List.flatten_append, List.flatten_cons, List.flatten_nil,
          List.append_nil, htk]
        rw [← List.append_assoc]
        have hlog2 : (List.map (fun pr => pr.2) s.end_data_zone.innerLog).flatten
            ++ s.block = data := hdata
        rw [hlog2]
    · rw [if_neg hpad]
      have hpad2 : ¬(s.block.length < R) := by
        have h1 : s.end_data_zone.block = s.block := rfl
        have h2 : s.end_data_zone.blocking_factor = s.blocking_factor := rfl
        rw [h1, h2, hbf] at hpad
        exact hpad
      have hblen : s.block.length = R := by omega
      have hfull : s.end_data_zone.block.length
          ≥ s.end_data_zone.blocking_factor := by
        show s.block.length ≥ s.blocking_factor
        rw [hbf]
        omega
      unfold BlockingWriter.empty_block
      rw [if_pos hfull]
      have htk : List.take s.end_data_zone.blocking_factor s.end_data_zone.block
          = s.block := by
        show List.take s.blocking_factor s.block = s.block
        rw [hbf]
        exact List.take_of_length_le (by omega)
      have hrep : List.replicate (R - s.block.length) (0 : Nat) = [] := by
        rw [hblen]
        simp
      constructor
      · intro pr hpr
        simp only [List.mem_append, List.mem_singleton] at hpr
        rcases hpr with hpr | hpr
        · exact hrecs pr hpr
        · rw [hpr, htk]
          exact hblen
      · simp only [logBytes, List.map_append, List.map_cons, List.map_nil,
          List.flatten_append, List.flatten_cons, List.flatten_nil,
          List.append_nil, htk, hrep]
        exact hdata
  refine ⟨main.1, main.2, ?_⟩
  have hlen := logBytes_length R s.flush main.1
  rw [main.2, List.length_append, List.length_replicate] at hlen
  omega

/-- Claim C8: for every sequence of writes followed by `flush` on a
`BlockingWriter` with blocking factor `N > 0` (record size
`R = N * 512`): (1) every buffer handed to the inner sink's `write` is
exactly `R` bytes; (2) the byte stream handed to the inner sink is the
caller's bytes, in order, followed by the zero padding `flush` adds to
fill the final record — no byte duplicated, lost or reordered; and
(3) within one `write` call every record handed down comes wholly from
one path: either it is the pre-call contents of the record buffer
(`empty_block`, i.e. the buffered path), or it is a contiguous `R`-byte
slice of the caller's buffer (the shortcut path, taken only with the
record buffer empty) — the two paths never interleave their bytes inside
one record. -/
theorem claim_C8_blocking_stage (factor : Nat) (hf : 0 < factor)
    (bufs : List (List Nat)) :
    (∀ pr ∈ ((bufs.foldl BlockingWriter.write_all
        (BlockingWriter.new_with_factor factor)).flush).innerLog,
      pr.2.length = factor * 512) ∧
    logBytes ((bufs.foldl BlockingWriter.write_all
        (BlockingWriter.new_with_factor factor)).flush)
      = bufs.flatten
        ++ List.replicate
            ((((bufs.foldl BlockingWriter.write_all
                  (BlockingWriter.new_with_factor factor)).flush).innerLog.length
                  * (factor * 512))
              - bufs.flatten.length) 0 ∧
    (∀ (s : BlockingWriter) (buf : List Nat),
      s.blocking_factor = factor * 512 →
      ∀ pr ∈ (s.write buf).1.innerLog,
        pr ∈ s.innerLog
          ∨ (pr.1 = RecSrc.blockbuf ∧ pr.2 = s.block.take (factor * 512))
          ∨ (pr.1 = RecSrc.shortcut
              ∧ ∃ k, k + factor * 512 ≤ buf.length
                  ∧ pr.2 = (buf.drop k).take (factor * 512))) := by
  have hR : 0 < factor * 512 := by omega
  have hbase : BWInv (factor * 512) (BlockingWriter.new_with_factor factor) [] := by
    refine ⟨rfl, ?_, ?_, ?_⟩
    · simp [BlockingWriter.new_with_factor]
    · intro pr hpr
      simp [BlockingWriter.new_with_factor] at hpr
    · simp [logBytes, BlockingWriter.new_with_factor]
  have hrun := foldl_write_all_spec (factor * 512) hR bufs
    (BlockingWriter.new_with_factor factor) [] hbase
  simp only [List.nil_append] at hrun
  have hflush := flush_spec (factor * 512) hR _ bufs.flatten hrun
  refine ⟨hflush.1, ?_, ?_⟩
  · rw [hflush.2.1]
    congr 2
    have h3 := hflush.2.2
    omega
  · intro s buf hbf
    exact write_single_source (factor * 512) hR s buf hbf

/-- Witness for claim C8 at blocking factor 1 and input `[[1,2,3]]`. -/
theorem claim_C8_witness :
    0 < 1 ∧
    ((∀ pr ∈ ((([[1,2,3]] : List (List Nat)).foldl BlockingWriter.write_all
        (BlockingWriter.new_with_factor 1)).flush).innerLog,
      pr.2.length = 1 * 512) ∧
    logBytes ((([[1,2,3]] : List (List Nat)).foldl BlockingWriter.write_all
        (BlockingWriter.new_with_factor 1)).flush)
      = ([[1,2,3]] : List (List Nat)).flatten
        ++ List.replicate
            ((((([[1,2,3]] : List (List Nat)).foldl BlockingWriter.write_all
                  (BlockingWriter.new_with_factor 1)).flush).innerLog.length
                  * (1 * 512))
              - ([[1,2,3]] : List (List Nat)).flatten.length) 0 ∧
    (∀ (s : BlockingWriter) (buf : List Nat),
      s.blocking_factor = 1 * 512 →
      ∀ pr ∈ (s.write buf).1.innerLog,
        pr ∈ s.innerLog
          ∨ (pr.1 = RecSrc.blockbuf ∧ pr.2 = s.block.take (1 * 512))
          ∨ (pr.1 = RecSrc.shortcut
              ∧ ∃ k, k + 1 * 512 ≤ buf.length
                  ∧ pr.2 = (buf.drop k).take (1 * 512)))) :=
  ⟨by decide, claim_C8_blocking_stage 1 (by decide) [[1,2,3]]⟩

/-! ## Claim C5: the asynchronous write buffer (`concurrentbuf.rs`) -/

/-- `concurrentbuf.rs` `ConcurrentCommand` (the commands the producer
enqueues for the worker; `DoRead` is never sent by the write path). -/
inductive CwbCommand : Type where
  | doWriteAll (data : List Nat)
  | doFlush
  | doBeginDataZone (ident : Nat)
  | doEndDataZone
  | terminate
  deriving Repr, DecidableEq

/-- `concurrentbuf.rs` `ConcurrentResponse` as seen by the producer.
`didWriteAll (some size)` is `DidWriteAll(Ok(size))`, `didWriteAll none`
is `DidWriteAll(Err(_))`; for the other fallible responses only success
or failure matters to the drain loops. -/
inductive CwbResponse : Type where
  | didRead (ok : Bool)
  | didWriteAll (result : Option Nat)
  | didFlush (ok : Bool)
  | didBeginDataZone
  | didEndDataZone
  | terminated
  deriving Repr, DecidableEq

/-- Producer-side state of `ConcurrentWriteBuffer`.  The command channel
is modelled by the log of commands enqueued; the worker and the shared
inner sink are outside this model (the inner snapshot is a parameter of
`uncommitted_writes`). -/
structure ConcurrentWriteBuffer where
  buffered_size : Nat
  buffered_limit : Nat
  current_data_zone : Option (DataZone Nat)
  uncommitted_data_zones : List (DataZone Nat)
  cmdLog : List CwbCommand
  deriving Repr, DecidableEq

namespace ConcurrentWriteBuffer

/-- `ConcurrentWriteBuffer::new` (producer-side fields). -/
def new (limit : Nat) : ConcurrentWriteBuffer :=
  { buffered_size := 0, buffered_limit := limit, current_data_zone := none,
    uncommitted_data_zones := [], cmdLog := [] }

/-- The `for zone in &mut self.uncommitted_data_zones` loop of
`mark_data_committed`: zones yielding an overhang are drained and the
remainder rolls forward; a zone that absorbs the commitment is kept
(mutated) and the loop breaks — with `commit_remain` left at the value
passed into that iteration, exactly as in the source. -/
def cwbDrainZones : List (DataZone Nat) → Nat → List (DataZone Nat) × Nat
  | [], n => ([], n)
  | z :: rest, n =>
    let step := z.write_committed n
    match step.2 with
    | some overhang => cwbDrainZones rest overhang
    | none => (step.1 :: rest, n)

/-- `ConcurrentWriteBuffer::mark_data_committed`.  `buffered_size` is a
`usize`; its subtraction is modelled by truncated `Nat` subtraction
(the source would panic on underflow in debug builds). -/
def mark_data_committed (s : ConcurrentWriteBuffer) (committed_size : Nat) :
    ConcurrentWriteBuffer :=
  { s with
      uncommitted_data_zones :=
        (cwbDrainZones s.uncommitted_data_zones committed_size).1,
      current_data_zone :=
        if (cwbDrainZones s.uncommitted_data_zones committed_size).2 > 0 then
          match s.current_data_zone with
          | some cz =>
            some (cz.write_committed
              (cwbDrainZones s.uncommitted_data_zones committed_size).2).1
          | none => none
        else s.current_data_zone,
      buffered_size := s.buffered_size - committed_size }

/-- `ConcurrentWriteBuffer::mark_data_buffered`. -/
def mark_data_buffered (s : ConcurrentWriteBuffer) (buffered_size : Nat) :
    ConcurrentWriteBuffer :=
  { s with
      current_data_zone :=
        match s.current_data_zone with
        | some cz => some (cz.write_buffered buffered_size)
        | none => none,
      buffered_size := s.buffered_size + buffered_size }

end ConcurrentWriteBuffer

/-- Result of the producer's drain loop: the updated state, the
responses not yet consumed and how many were consumed — or an error
(worker reported failure, or the response channel closed). -/
inductive DrainResult : Type where
  | ok (s : ConcurrentWriteBuffer) (rest : List CwbResponse) (consumed : Nat)
  | err
  deriving Repr, DecidableEq

def DrainResult.bump : DrainResult → DrainResult
  | .ok s rest c => .ok s rest (c + 1)
  | .err => .err

/-- `ConcurrentWriteBuffer::drain_buf_until_space`: while
`needed_space < buffered_limit && buffered_size + needed_space >
buffered_limit`, consume a worker response — `DidWriteAll(Ok(size))`
credits `mark_data_committed`, errors abort, everything else is
skipped.  The response sequence the worker will produce is a parameter;
an exhausted sequence models the closed channel ("Buffer thread
unexpectedly terminated"). -/
def drain_buf_until_space :
    ConcurrentWriteBuffer → Nat → List CwbResponse → DrainResult
  | s, needed_space, [] =>
    if needed_space < s.buffered_limit
        ∧ s.buffered_size + needed_space > s.buffered_limit then
      DrainResult.err
    else DrainResult.ok s [] 0
  | s, needed_space, r :: rest =>
    if needed_space < s.buffered_limit
        ∧ s.buffered_size + needed_space > s.buffered_limit then
      match r with
      | .didWriteAll (some size) =>
        (drain_buf_until_space (s.mark_data_committed size) needed_space rest).bump
      | .didWriteAll none => DrainResult.err
      | .didRead false => DrainResult.err
      | .didFlush false => DrainResult.err
      | _ => (drain_buf_until_space s needed_space rest).bump
    else DrainResult.ok s (r :: rest) 0

namespace ConcurrentWriteBuffer

/-- `io::Write::write` for `ConcurrentWriteBuffer`: drain until the
request fits, account the bytes as buffered, enqueue
`DoWriteAll(copy of b)` and return `|b|`; `none` models the error
return. -/
def write (s : ConcurrentWriteBuffer) (buf : List Nat)
    (resps : List CwbResponse) :
    Option (ConcurrentWriteBuffer × Nat × List CwbResponse) :=
  match drain_buf_until_space s buf.length resps with
  | .err => none
  | .ok s1 rest _ =>
    some ({ s1.mark_data_buffered buf.length with
              cmdLog := (s1.mark_data_buffered buf.length).cmdLog
                ++ [CwbCommand.doWriteAll buf] },
          buf.length, rest)

/-- `RecoverableWrite::end_data_zone` for `ConcurrentWriteBuffer`. -/
def end_data_zone (s : ConcurrentWriteBuffer) : ConcurrentWriteBuffer :=
  { s with
      uncommitted_data_zones := s.uncommitted_data_zones
        ++ (match s.current_data_zone with | some z => [z] | none => []),
      current_data_zone := none,
      cmdLog := s.cmdLog ++ [CwbCommand.doEndDataZone] }

/-- `RecoverableWrite::begin_data_zone` for `ConcurrentWriteBuffer`. -/
def begin_data_zone (s : ConcurrentWriteBuffer) (ident : Nat) :
    ConcurrentWriteBuffer :=
  { s.end_data_zone with
      current_data_zone := some (DataZone.new ident),
      cmdLog := s.end_data_zone.cmdLog ++ [CwbCommand.doBeginDataZone ident] }

/-- `resume_data_zone` on a `ConcurrentWriteBuffer`: the source's
`RecoverableWrite for ConcurrentWriteBuffer` impl (concurrentbuf.rs
lines 236-266) does NOT override `resume_data_zone`, and the command
enum has no resume command at all, so the trait's default — an empty
body — applies: nothing is recorded and nothing is enqueued. -/
def resume_data_zone (s : ConcurrentWriteBuffer) (_ident : Nat)
    (_committed : Nat) : ConcurrentWriteBuffer :=
  s

/-- `RecoverableWrite::uncommitted_writes` for `ConcurrentWriteBuffer`:
append the local zones (and the current zone) AFTER the inner sink's
snapshot, without any merging. -/
def uncommitted_writes (s : ConcurrentWriteBuffer)
    (inner_ucw : List (DataZone Nat)) : List (DataZone Nat) :=
  inner_ucw ++ s.uncommitted_data_zones
    ++ (match s.current_data_zone with | some z => [z] | none => [])

end ConcurrentWriteBuffer

theorem bump_ne_ok_zero (d : DrainResult) (s : ConcurrentWriteBuffer)
    (rest : List CwbResponse) : d.bump ≠ DrainResult.ok s rest 0 := by
  cases d <;> simp [DrainResult.bump]

/-- Claim C5, counterexample to the claim as stated: with quota 4, one
byte already buffered and a 4-byte request, the claim's trigger
(`|b| ≤ quota ∧ buffered + |b| > quota`) holds — it says the producer
waits — but the code's loop condition is `needed_space <
buffered_limit`, strict, so the producer returns immediately without
consuming the available worker response. -/
theorem claim_C5_counterexample :
    ((4 ≤ 4 ∧ 1 + 4 > 4) ∧
      drain_buf_until_space ⟨1, 4, none, [], []⟩ 4
          [CwbResponse.didWriteAll (some 1)]
        = DrainResult.ok ⟨1, 4, none, [], []⟩
            [CwbResponse.didWriteAll (some 1)] 0) := by
  decide

/-- Claim C5 as amended: the producer consumes worker responses (waits)
exactly when `|b| < quota` and `buffered + |b| > quota` — strictly less
than the quota, not at-most; in particular whenever `|b| ≥ quota` it
never waits and enqueues unconditionally; and whenever the drain
succeeds, `write` enqueues `DoWriteAll(b)` and returns `|b|`. -/
theorem claim_C5_amended (s : ConcurrentWriteBuffer) (buf : List Nat)
    (resps : List CwbResponse) :
    (drain_buf_until_space s buf.length resps = DrainResult.ok s resps 0
        ↔ ¬(buf.length < s.buffered_limit
              ∧ s.buffered_size + buf.length > s.buffered_limit)) ∧
    (buf.length ≥ s.buffered_limit →
      drain_buf_until_space s buf.length resps = DrainResult.ok s resps 0) ∧
    (∀ s1 rest k,
      drain_buf_until_space s buf.length resps = DrainResult.ok s1 rest k →
      s.write buf resps
        = some ({ s1.mark_data_buffered buf.length with
                    cmdLog := (s1.mark_data_buffered buf.length).cmdLog
                      ++ [CwbCommand.doWriteAll buf] },
                buf.length, rest)) := by
  have hiff : drain_buf_until_space s buf.length resps = DrainResult.ok s resps 0
      ↔ ¬(buf.length < s.buffered_limit
            ∧ s.buffered_size + buf.length > s.buffered_limit) := by
    constructor
    · intro hok hcond
      cases resps with
      | nil =>
        rw [drain_buf_until_space, if_pos hcond] at hok
        simp at hok
      | cons r rest =>
        cases r with
        | didRead b =>
          cases b with
          | false =>
            rw [drain_buf_until_space, if_pos hcond] at hok
            simp at hok
          | true =>
            rw [drain_buf_until_space, if_pos hcond] at hok
            · exact absurd hok (bump_ne_ok_zero _ _ _)
            all_goals simp
        | didWriteAll res =>
          cases res with
          | none =>
            rw [drain_buf_until_space, if_pos hcond] at hok
            simp at hok
          | some size =>
            rw [drain_buf_until_space, if_pos hcond] at hok
            exact absurd hok (bump_ne_ok_zero _ _ _)
        | didFlush b =>
          cases b with
          | false =>
            rw [drain_buf_until_space, if_pos hcond] at hok
            simp at hok
          | true =>
            rw [drain_buf_until_space, if_pos hcond] at hok
            · exact absurd hok (bump_ne_ok_zero _ _ _)
            all_goals simp
        | didBeginDataZone =>
          rw [drain_buf_until_space, if_pos hcond] at hok
          · exact absurd hok (bump_ne_ok_zero _ _ _)
          all_goals simp
        | didEndDataZone =>
          rw [drain_buf_until_space, if_pos hcond] at hok
          · exact absurd hok (bump_ne_ok_zero _ _ _)
          all_goals simp
        | terminated =>
          rw [drain_buf_until_space, if_pos hcond] at hok
          · exact absurd hok (bump_ne_ok_zero _ _ _)
          all_goals simp
    · intro hcond
      cases resps with
      | nil => rw [drain_buf_until_space, if_neg hcond]
      | cons r rest =>
        cases r with
        | didRead b =>
          cases b with
          | false => rw [drain_buf_until_space, if_neg hcond]
          | true =>
            rw [drain_buf_until_space, if_neg hcond]
            all_goals simp
        | didWriteAll res =>
          cases res with
          | none => rw [drain_buf_until_space, if_neg hcond]
          | some size => rw [drain_buf_until_space, if_neg hcond]
        | didFlush b =>
          cases b with
          | false => rw [drain_buf_until_space, if_neg hcond]
          | true =>
            rw [drain_buf_until_space, if_neg hcond]
            all_goals simp
        | didBeginDataZone =>
          rw [drain_buf_until_space, if_neg hcond]
          all_goals simp
        | didEndDataZone =>
          rw [drain_buf_until_space, if_neg hcond]
          all_goals simp
        | terminated =>
          rw [drain_buf_until_space, if_neg hcond]
          all_goals simp
  refine ⟨hiff, ?_, ?_⟩
  · intro hge
    exact hiff.mpr (by omega)
  · intro s1 rest k hdr
    unfold ConcurrentWriteBuffer.write
    rw [hdr]

/-- Witness for claim C5 at a concrete state and request. -/
theorem claim_C5_witness :
    (drain_buf_until_space ⟨2, 8, none, [], []⟩ 3 []
          = DrainResult.ok ⟨2, 8, none, [], []⟩ [] 0
        ↔ ¬(3 < 8 ∧ 2 + 3 > 8)) ∧
    (3 ≥ 8 →
      drain_buf_until_space ⟨2, 8, none, [], []⟩ 3 []
        = DrainResult.ok ⟨2, 8, none, [], []⟩ [] 0) ∧
    (∀ s1 rest k,
      drain_buf_until_space ⟨2, 8, none, [], []⟩ 3 []
          = DrainResult.ok s1 rest k →
      ConcurrentWriteBuffer.write ⟨2, 8, none, [], []⟩ [5, 6, 7] []
        = some ({ s1.mark_data_buffered 3 with
                    cmdLog := (s1.mark_data_buffered 3).cmdLog
                      ++ [CwbCommand.doWriteAll [5, 6, 7]] },
                3, rest)) :=
  claim_C5_amended ⟨2, 8, none, [], []⟩ [5, 6, 7] []

/-! ## Claim C9: `resume_data_zone` on the wrapping stages -/

/-- Claim C9, evaluation of the code at the failing input: calling
`resume_data_zone(7, 100)` on a `BlockingWriter` or on a
`ConcurrentWriteBuffer` is the `RecoverableWrite` trait default — an
empty body.  The state is unchanged: no local zone is recorded (the
snapshot stays empty), and nothing is forwarded to the inner sink (the
async buffer's command log stays empty).  The claim instead requires a
forwarded call plus a local zone with
`length = committed_length = 100` — the shape `DataZone::for_resumption`
(which exists but is never reached through these stages) would produce. -/
theorem claim_C9_resume_is_noop :
    (BlockingWriter.new_with_factor 1).resume_data_zone 7 100
        = BlockingWriter.new_with_factor 1 ∧
    ((BlockingWriter.new_with_factor 1).resume_data_zone 7 100).uncommitted_writes
        = [] ∧
    (ConcurrentWriteBuffer.new 1024).resume_data_zone 7 100
        = ConcurrentWriteBuffer.new 1024 ∧
    ((ConcurrentWriteBuffer.new 1024).resume_data_zone 7 100).cmdLog = [] ∧
    ((ConcurrentWriteBuffer.new 1024).resume_data_zone 7 100).uncommitted_writes []
        = [] ∧
    (DataZone.for_resumption 7 100).length = 100 ∧
    (DataZone.for_resumption 7 100).committed_length = 100 := by
  decide

/-! ## Claims C1 and C2: the recovery engine (`tar/recovery.rs`) -/

/-- `tar/recovery.rs` `RecoveryEntry`.  Paths are abstract atoms. -/
structure RecoveryEntry where
  original_path : Nat
  canonical_path : Nat
  header_length : Nat
  deriving Repr, DecidableEq

/-- `tar/header.rs` `TarFormat`. -/
inductive TarFormat : Type where
  | USTAR
  | POSIX
  deriving Repr, DecidableEq

/-- The `offset` computed in `recover_data` (recovery.rs lines 83-99):
`0` for USTAR; for POSIX
`zone.committed_length.checked_sub(ident.header_length).unwrap_or(0)`,
which is truncated `Nat` subtraction. -/
def recoverOffset (format : TarFormat) (committed header_length : Nat) : Nat :=
  match format with
  | .USTAR => 0
  | .POSIX => committed - header_length

/-- The file-content bytes `recover_data` writes for a regular-file zone
on the new volume: `File::open`, `seek(SeekFrom::Start(offset))`,
`io::copy(file, sink)` — i.e. the file from `offset` on (a seek at or
past end-of-file yields no bytes). -/
def recoverContent (format : TarFormat) (committed header_length : Nat)
    (file : List Nat) : List Nat :=
  file.drop (recoverOffset format committed header_length)

/-- The fields of the abstract `TarHeader` (tar/header.rs) that the
recovery path reads or writes; the remaining metadata fields are
untouched by `recover_data` and omitted. -/
structure TarHeader where
  path : Nat
  file_size : Nat
  recovery_path : Option Nat
  recovery_total_size : Option Nat
  recovery_seek_offset : Option Nat
  deriving Repr, DecidableEq

/-- `TarHeader::abstract_header_for_file`, restricted to the modelled
fields: `file_size = entry_metadata.len()`, recovery fields `None`. -/
def TarHeader.abstract_header_for_file (archival_path : Nat) (file_len : Nat) :
    TarHeader :=
  { path := archival_path, file_size := file_len,
    recovery_path := none, recovery_total_size := none,
    recovery_seek_offset := none }

/-- The continuation header `recover_data` builds in its POSIX branch
(recovery.rs lines 90-99): the fresh abstract header for the file with
`recovery_path = ident.original_path`,
`recovery_total_size = metadata.len()` and
`recovery_seek_offset = offset`. -/
def recoverPosixHeader (ident : RecoveryEntry) (committed : Nat)
    (file_len : Nat) : TarHeader :=
  { TarHeader.abstract_header_for_file ident.original_path file_len with
      recovery_path := some ident.original_path,
      recovery_total_size := some file_len,
      recovery_seek_offset :=
        some (recoverOffset .POSIX committed ident.header_length) }

/-- The continuation-relevant content of a serialized PAX header: its
size field and the three `GNU.volume` attributes. -/
structure PaxContinuationView where
  size_field : Nat
  volume_filename : Option Nat
  volume_size : Option Nat
  volume_offset : Option Nat
  deriving Repr, DecidableEq

/-- Modelled from the spec: `pax_header` of the librapidarchive tree —
the revision `recover_data` calls (`use crate::tar::{ustar, pax}`) — is
missing from src/; only a pre-recovery revision survives
(src/src/rapidtar/tar/pax.rs), which predates the recovery fields.  Per
spec §4.7 and §6, for a header carrying recovery fields the PAX encoder
emits the entry's size as the remaining bytes and the attributes
`GNU.volume.filename` (the original path), `GNU.volume.size` (the
remaining bytes) and `GNU.volume.offset` (the bytes already archived);
for a header without recovery fields it emits the plain size and no
continuation attributes. -/
def pax_header_view (h : TarHeader) : PaxContinuationView :=
  match h.recovery_path, h.recovery_total_size, h.recovery_seek_offset with
  | some p, some total, some off =>
    { size_field := total - off,
      volume_filename := some p,
      volume_size := some (total - off),
      volume_offset := some off }
  | _, _, _ =>
    { size_field := h.file_size,
      volume_filename := none, volume_size := none, volume_offset := none }

/-- Claim C2: for every zone identity handed to `recover_data` in POSIX
format, the offset is `max(0, committed − header_length)` (stated over
`Int` to express the clamp), the continuation entry keeps the fresh
header's path and metadata with its size field equal to
`file.len() − offset`, and it carries `GNU.volume.filename` (original
path), `GNU.volume.size` (remaining bytes) and `GNU.volume.offset`
(bytes already archived). -/
theorem claim_C2_posix_continuation (ident : RecoveryEntry)
    (committed file_len : Nat) :
    ((recoverOffset .POSIX committed ident.header_length : Int)
        = max 0 ((committed : Int) - (ident.header_length : Int))) ∧
    (recoverPosixHeader ident committed file_len).path = ident.original_path ∧
    (recoverPosixHeader ident committed file_len).file_size = file_len ∧
    (pax_header_view (recoverPosixHeader ident committed file_len)).size_field
        = file_len - recoverOffset .POSIX committed ident.header_length ∧
    (pax_header_view (recoverPosixHeader ident committed file_len)).volume_filename
        = some ident.original_path ∧
    (pax_header_view (recoverPosixHeader ident committed file_len)).volume_size
        = some (file_len - recoverOffset .POSIX committed ident.header_length) ∧
    (pax_header_view (recoverPosixHeader ident committed file_len)).volume_offset
        = some (recoverOffset .POSIX committed ident.header_length) := by
  refine ⟨?_, rfl, rfl, rfl, rfl, rfl, rfl⟩
  show ((committed - ident.header_length : Nat) : Int)
    = max 0 ((committed : Int) - (ident.header_length : Int))
  omega

/-- Claim C1, counterexample to the claim as stated: spanning with the
USTAR format.  For the file `[10,11,12,13]` torn with
`committed_length = 3` and `header_length = 2`, one content byte (10) is
already durable on the earlier volume, yet the USTAR branch of
`recover_data` sets `offset = 0` and re-emits the entire file, so the
concatenation holds byte 10 twice (5 bytes for a 4-byte file). -/
theorem claim_C1_counterexample :
    ¬ (([10, 11, 12, 13] : List Nat).take (3 - 2)
          ++ recoverContent TarFormat.USTAR 3 2 [10, 11, 12, 13]
        = [10, 11, 12, 13]) := by
  decide

/-- Claim C1 as amended: for a regular file handed to `recover_data` in
POSIX format, when the committed content of the earlier volumes
(`committed_length − header_length`, the bytes of file data before the
tear) does not exceed the file length and the make-up entry completes
without a further end-of-media, the committed content concatenated with
the make-up stream's content bytes is exactly the file — every byte
exactly once, none duplicated, none omitted. -/
theorem claim_C1_amended (file : List Nat) (committed header_length : Nat)
    (h : committed - header_length ≤ file.length) :
    file.take (committed - header_length)
        ++ recoverContent TarFormat.POSIX committed header_length file
      = file := by
  unfold recoverContent recoverOffset
  exact List.take_append_drop _ file

/-- Witness for claim C1 at a concrete torn file. -/
theorem claim_C1_witness :
    (3 - 2 ≤ ([10, 11, 12, 13] : List Nat).length) ∧
      (([10, 11, 12, 13] : List Nat).take (3 - 2)
          ++ recoverContent TarFormat.POSIX 3 2 [10, 11, 12, 13]
        = [10, 11, 12, 13]) :=
  ⟨by decide, claim_C1_amended [10, 11, 12, 13] 3 2 (by decide)⟩

end Rapidtar
